import Mathlib

set_option maxHeartbeats 1000000

namespace JpyDatareader

/-!  Shallow embedding of `jpy_datareader/estat.py` (the `StatsDataReader`
pipeline, the `MetaInfoReader` hierarchy builder, and the module-level
helper functions).  A pandas DataFrame is modelled as a list of rows, a row
being an association list from column name to cell; JSON payloads are
modelled as structures whose possibly-absent keys are `Option` fields. -/

/-- A cell of a table: a raw string (as delivered by the API), a parsed
number (the result of `pd.to_numeric`), or null (`NaN`). -/
inductive Cell where
  | str (v : String)
  | num (v : ℚ)
  | null
deriving DecidableEq, Repr

abbrev Row := List (String × Cell)

abbrev Table := List Row

/-- `col.lstrip("@")`: drop every leading `@` sigil of a raw field name. -/
def stripAt (s : String) : String := ⟨s.data.dropWhile (fun c => c = '@')⟩

/-- Association-list lookup (first binding wins), modelling access to a
column of a row. -/
def alookup {α : Type} (k : String) : List (String × α) → Option α
  | [] => none
  | kv :: r => if kv.1 = k then some kv.2 else alookup k r

/-- Append a key if it is new; this is pandas' first-appearance column
order when a DataFrame is built from a list of records. -/
def insertNew (x : String) (l : List String) : List String :=
  if x ∈ l then l else l ++ [x]

/-- Column list of a DataFrame built from a list of records: the union of
the record keys in order of first appearance. -/
def unionKeys (rs : List (List (String × String))) : List String :=
  rs.foldl (fun acc r => r.foldl (fun a kv => insertNew kv.1 a) acc) []

/-- One entry of a `CLASS` payload: its `@code` key plus the remaining raw
fields (`@name`, `@level`, `@unit`, `@parentCode`, ...). -/
structure ClassEntry where
  code : String
  fields : List (String × String)
deriving DecidableEq, Repr

/-- The `CLASS` field of a class object is sometimes a single JSON object
and sometimes a list of objects. -/
inductive ClassData where
  | single (e : ClassEntry)
  | many (es : List ClassEntry)
deriving DecidableEq, Repr

/-- One element of `CLASS_INF.CLASS_OBJ`. -/
structure ClassObj where
  id : String
  name : String
  classData : Option ClassData
deriving DecidableEq, Repr

def entryList : ClassData → List ClassEntry
  | .single e => [e]
  | .many es => es

/-- `class_data = co.get("CLASS"); if not class_data: continue` in
`StatsDataReader._merge_class_metadata`: an absent or falsy (empty list)
`CLASS` payload makes the merge skip this class object. -/
def truthyEntries (co : ClassObj) : Option (List ClassEntry) :=
  match co.classData with
  | none => none
  | some (.many []) => none
  | some cd => some (entryList cd)

/-- Merged-column naming in `_merge_class_metadata`:
`f"{co['@id']}_{col.lstrip('@')}"` when `name_or_id == "id"`, and
`f"{co['@name']}{col.lstrip('@')}"` otherwise. -/
def prefixCol (nameOrId : String) (co : ClassObj) (col : String) : String :=
  if nameOrId = "id" then co.id ++ "_" ++ stripAt col else co.name ++ stripAt col

/-- The join key of a row (`left_on=co["@id"]`): only a string cell can
match a code in the right-hand index; a null or numeric cell matches no
code, as in pandas. -/
def rowVal (r : Row) (c : String) : Option String :=
  match alookup c r with
  | some (.str v) => some v
  | _ => none

def toCell : Option String → Cell
  | some v => .str v
  | none => .null

/-- `value_df.merge(class_df, left_on=co["@id"], right_index=True,
how="left")` for one class object, after `class_df.set_index("@code")` and
the prefix renaming: pandas left-merge semantics emit, for every left row,
one output row per matching right row, and a single null-extended row when
no right row matches. -/
def mergeOne (nameOrId : String) (rows : Table) (co : ClassObj) : Table :=
  match truthyEntries co with
  | none => rows
  | some ents =>
      let cols := unionKeys (ents.map (·.fields))
      rows.flatMap (fun r =>
        let ms := ents.filter (fun e => rowVal r co.id = some e.code)
        if ms.isEmpty then
          [r ++ cols.map (fun c => (prefixCol nameOrId co c, Cell.null))]
        else
          ms.map (fun e =>
            r ++ cols.map (fun c => (prefixCol nameOrId co c, toCell (alookup c e.fields)))))

/-- `StatsDataReader._merge_class_metadata`: fold `mergeOne` over the class
objects of the response, in response order. -/
def mergeClassMetadata (nameOrId : String) (rows : Table) (cos : List ClassObj) : Table :=
  cos.foldl (mergeOne nameOrId) rows

/-- Specification-side single-match enrichment of one row by one class
object: the cells appended to the row by a left join whose right-hand codes
are unique. -/
def appendSeg (nameOrId : String) (r : Row) (co : ClassObj) : List (String × Cell) :=
  match truthyEntries co with
  | none => []
  | some ents =>
      let cols := unionKeys (ents.map (·.fields))
      let m := ents.find? (fun e => rowVal r co.id = some e.code)
      cols.map (fun c => (prefixCol nameOrId co c,
        match m with
        | some e => toCell (alookup c e.fields)
        | none => Cell.null))

/-- Specification-side row enrichment over all class objects. -/
def enrichRow (nameOrId : String) (cos : List ClassObj) (r : Row) : Row :=
  cos.foldl (fun r co => r ++ appendSeg nameOrId r co) r

/-! Column localization (`colname_to_japanese`) works on Python strings via
`k in c` (substring test) and `c.replace(k, v)` (replace every
non-overlapping occurrence, left to right).  We model both on the
character lists underlying `String`.  The substitution keys are all
non-empty, so the behaviour of `str.replace` on an empty pattern is not
modelled. -/

/-- Python `k in c` on character lists (an empty `k` is contained in
every string, as in Python). -/
def containsSub (k : List Char) : List Char → Bool
  | [] => k.isEmpty
  | c :: rest => k.isPrefixOf (c :: rest) || containsSub k rest

/-- Worker for `replaceSub`, structurally recursive on a fuel bound (the
length of the scanned list always suffices, since every step consumes at
least one character). -/
def replaceSubAux (k v : List Char) : Nat → List Char → List Char
  | _, [] => []
  | 0, s => s
  | fuel + 1, c :: rest =>
      if k.isPrefixOf (c :: rest) && !k.isEmpty then
        v ++ replaceSubAux k v fuel (rest.drop (k.length - 1))
      else
        c :: replaceSubAux k v fuel rest

/-- Python `c.replace(k, v)` on character lists for non-empty `k`: replace
every non-overlapping occurrence of `k` by `v`, scanning left to right. -/
def replaceSub (k v s : List Char) : List Char :=
  replaceSubAux k v s.length s

/-- The ordered token→replacement table local to `colname_to_japanese`
(its insertion order decides which token wins). -/
def attrdict : List (String × String) :=
  [("value", "値"), ("code", "コード"), ("name", ""), ("level", "階層レベル"),
   ("unit", "単位"), ("parentCode", "親コード"), ("addInf", "追加情報"),
   ("tab", "表章項目"), ("cat", "分類"), ("area", "地域"), ("time", "時間軸"),
   ("annotation", "注釈記号")]

/-- `_convert` inside `colname_to_japanese`: the first token of `attrdict`
contained in the column name is replaced (all its occurrences); a name
containing no token is returned unchanged. -/
def convertCol (c : String) : String :=
  match attrdict.find? (fun kv => containsSub kv.1.data c.data) with
  | some kv => ⟨replaceSub kv.1.data kv.2.data c.data⟩
  | none => c

/-- `colname_to_japanese`: rename every column by `_convert`. -/
def colname_to_japanese (cols : List String) : List String :=
  cols.map convertCol

/-- First renaming step of `_apply_naming_conventions`: a column whose name
is in `self.attrlist` (the raw observation columns, `@` stripped) gets the
`_code` suffix. -/
def renameColCode (attrlist : List String) (c : String) : String :=
  if c ∈ attrlist then c ++ "_code" else c

/-- Second renaming step: `rename(columns={"$_code": "value"})`. -/
def renameDollar (c : String) : String :=
  if c = "$_code" then "value" else c

/-- Last renaming step in the `name_or_id == "name"` branch:
`rename(columns={"value": "値"})`. -/
def renameValueJa (c : String) : String :=
  if c = "value" then "値" else c

/-- `StatsDataReader._apply_naming_conventions` on the column names of the
merged table. -/
def applyNamingConventions (nameOrId : String) (attrlist : List String)
    (cols : List String) : List String :=
  let s1 := cols.map (renameColCode attrlist)
  let s2 := s1.map renameDollar
  if nameOrId = "name" then (colname_to_japanese s2).map renameValueJa else s2

/-! Pagination (`StatsDataReader._read`, `_read_with_pagination`,
`_read_with_classification_split`, `_generate_parameter_combinations`).
The HTTP layer is abstracted: a fetch oracle maps the extra
partition parameters of a request to the table `_read_one_data` would
return (or to the exception it would raise), and the requests a read
issues are traced as pairs of the `limit` parameter sent and the extra
partition parameters. -/

/-- The `ptrans` mapping of `_read_with_classification_split`: only the
six listed dimension ids can be used as partition parameters. -/
def ptrans (dimId : String) : Option String :=
  alookup dimId
    [("tab", "cdTab"), ("time", "cdTime"), ("area", "cdArea"),
     ("cat01", "cdCat01"), ("cat02", "cdCat02"), ("cat03", "cdCat03")]

/-- One row of `cls_info` / `cls_df`: position of the class object in
`CLASS_OBJ`, its id, and the length of its `CLASS` list. -/
structure ClsInfo where
  index : Nat
  id : String
  size : Nat
deriving DecidableEq, Repr

/-- `cls_info`: one record per class object whose `CLASS` field is a list
(`isinstance(co.get("CLASS"), list)`); single-object and absent `CLASS`
payloads are never candidates. -/
def clsInfoAux (n : Nat) : List ClassObj → List ClsInfo
  | [] => []
  | co :: rest =>
      match co.classData with
      | some (.many es) => ⟨n, co.id, es.length⟩ :: clsInfoAux (n + 1) rest
      | _ => clsInfoAux (n + 1) rest

def clsInfo (cos : List ClassObj) : List ClsInfo := clsInfoAux 0 cos

/-- Stable insertion for the descending-by-size sort
(`cls_df.sort_values("size", ascending=False)`). -/
def insertDesc (x : ClsInfo) : List ClsInfo → List ClsInfo
  | [] => [x]
  | y :: ys => if y.size < x.size then x :: y :: ys else y :: insertDesc x ys

def sortDesc (l : List ClsInfo) : List ClsInfo := l.foldr insertDesc []

/-- `[entry["@code"] for entry in class_obj[row["index"]]["CLASS"]]`. -/
def codesAt (cos : List ClassObj) (n : Nat) : List String :=
  match cos[n]? with
  | some co =>
      match co.classData with
      | some (.many es) => es.map (·.code)
      | _ => []
  | none => []

/-- The candidate-selection loop of `_read_with_classification_split`:
walk the sorted candidates, skip ids without a `ptrans` entry, and after
adopting a dimension divide the remaining total by its size, stopping as
soon as the estimate drops under the server cap.  (The source would raise
`ZeroDivisionError` on an adopted dimension of size 0; the theorems below
therefore restrict attention to positive sizes.) -/
def chooseDims (cos : List ClassObj) : Nat → List ClsInfo → List (String × List String)
  | _, [] => []
  | remaining, info :: rest =>
      match ptrans info.id with
      | none => chooseDims cos remaining rest
      | some p =>
          let cs := codesAt cos info.index
          let r := remaining / info.size
          if r < 100000 then [(p, cs)] else (p, cs) :: chooseDims cos r rest

/-- `StatsDataReader._generate_parameter_combinations`: the Cartesian
product of the code lists, built left to right; an empty input yields no
combinations at all. -/
def generateParameterCombinations (codes : List (List String)) : List (List String) :=
  if codes.isEmpty then []
  else codes.foldl
    (fun result codeList => result.flatMap (fun ex => codeList.map (fun c => ex ++ [c])))
    [[]]

def splitChosen (cos : List ClassObj) (total : Nat) : List (String × List String) :=
  chooseDims cos total (sortDesc (clsInfo cos))

def splitParamNames (cos : List ClassObj) (total : Nat) : List String :=
  (splitChosen cos total).map (·.1)

def splitCombos (cos : List ClassObj) (total : Nat) : List (List String) :=
  generateParameterCombinations ((splitChosen cos total).map (·.2))

/-- The fetch loop of `_read_with_classification_split`: a partition whose
fetch raises is logged and skipped (`except ... continue`); the others are
kept in generation order. -/
def fetchLoop (fetch : List (String × String) → Except String Table)
    (paramNames : List String) : List (List String) → List Table
  | [] => []
  | combo :: rest =>
      match fetch (paramNames.zip combo) with
      | .ok df => df :: fetchLoop fetch paramNames rest
      | .error _ => fetchLoop fetch paramNames rest

/-- `_read_with_classification_split`:
`pd.concat(dfs, ...) if dfs else pd.DataFrame()`. -/
def readWithClassificationSplit (fetch : List (String × String) → Except String Table)
    (cos : List ClassObj) (total : Nat) : Table :=
  let dfs := fetchLoop fetch (splitParamNames cos total) (splitCombos cos total)
  if dfs.isEmpty then [] else dfs.flatten

/-- A traced data request: the `limit` query parameter it carries and the
extra partition parameters added by the split. -/
abbrev Req := Option Nat × List (String × String)

/-- Requests issued by the partition phase, one per combination. -/
def splitRequests (cos : List ClassObj) (total : Nat) : List Req :=
  (splitCombos cos total).map
    (fun combo => ((none : Option Nat), (splitParamNames cos total).zip combo))

/-- Request trace of `StatsDataReader._read`: a configured non-null limit
goes straight to one `_read_one_data` call; a null limit first issues the
`limit=1` probe of `_read_with_pagination`, then either one normal fetch
(total within the server cap) or the partition requests. -/
def readDataRequests (limit : Option Nat) (total : Nat) (cos : List ClassObj) : List Req :=
  match limit with
  | some l => [(some l, [])]
  | none =>
      (some 1, []) ::
        (if total ≤ 100000 then [((none : Option Nat), ([] : List (String × String)))]
         else splitRequests cos total)

/-- The eligible candidates, in consideration order: sorted descending by
size, restricted to ids having a `ptrans` partition parameter. -/
def eligibleInfos (cos : List ClassObj) : List ClsInfo :=
  (sortDesc (clsInfo cos)).filter (fun i => (ptrans i.id).isSome)

/-- The selection loop restricted to eligible candidates (no skip case). -/
def chooseDimsE (cos : List ClassObj) : Nat → List ClsInfo → List (String × List String)
  | _, [] => []
  | remaining, info :: rest =>
      let p := (ptrans info.id).getD ""
      let cs := codesAt cos info.index
      let r := remaining / info.size
      if r < 100000 then [(p, cs)] else (p, cs) :: chooseDimsE cos r rest

def foldDiv (t : Nat) (l : List Nat) : Nat := l.foldl (· / ·) t

/-! Concrete scenario data: a response with an `area` dimension of 47
codes and a `cat01` dimension of 3 codes (spec Scenario D), and a response
with no partitionable dimension. -/

def areaEntriesD : List ClassEntry :=
  (List.range 47).map (fun n => ⟨toString n, [("@name", "a")]⟩)

def cat01EntriesD : List ClassEntry :=
  [⟨"100", [("@name", "x")]⟩, ⟨"200", [("@name", "y")]⟩, ⟨"300", [("@name", "z")]⟩]

def cosD : List ClassObj :=
  [⟨"area", "地域", some (.many areaEntriesD)⟩,
   ⟨"cat01", "分類01", some (.many cat01EntriesD)⟩]

def tblD : List String → Table := fun _ => [[("value", Cell.str "1")]]

def fetchD : List (String × String) → Except String Table := fun _ => .ok (tblD [])

def cosX : List ClassObj :=
  [⟨"area", "地域", some (.single ⟨"01", []⟩)⟩,
   ⟨"cat04", "分類04", some (.many [⟨"1", []⟩, ⟨"2", []⟩])⟩]

/-! Missing-value handling (`StatsDataReader._handle_missing_values` and
the module-level `missing_to_nan`). -/

/-- One entry of `DATA_INF.NOTE`: its `@char` marker and its text. -/
structure NoteEntry where
  char : String
  text : String
deriving DecidableEq, Repr

/-- `NOTE` is sometimes a single JSON object, sometimes a list. -/
inductive NoteData where
  | single (e : NoteEntry)
  | many (es : List NoteEntry)
deriving DecidableEq, Repr

/-- The marker characters collected from `NOTE` (`[n["@char"] for n in
note]` for a list, `[note["@char"]]` for a single object); an absent or
falsy (empty-list) `NOTE` contributes no marker. -/
def noteChars : Option NoteData → List String
  | none => []
  | some (.single e) => [e.char]
  | some (.many es) => es.map (·.char)

/-- `value_df["$"].replace(note_chars, self.na_values)` on one cell, for
the default sentinel `np.nan`: a string cell equal to a marker becomes
null; every other cell is unchanged. -/
def replaceMarkers (chars : List String) : Cell → Cell
  | .str v => if v ∈ chars then .null else .str v
  | c => c

def digitVal (c : Char) : Option Nat :=
  if c.isDigit then some (c.toNat - '0'.toNat) else none

def parseDigitsAux : Option Nat → List Char → Option Nat
  | acc, [] => acc
  | acc, c :: cs =>
      match acc, digitVal c with
      | some n, some d => parseDigitsAux (some (n * 10 + d)) cs
      | _, _ => none

def parseDigits : List Char → Option Nat
  | [] => none
  | cs => parseDigitsAux (some 0) cs

/-- Plain decimal literal (optional fraction part). -/
def parseUnsigned (cs : List Char) : Option ℚ :=
  let ip := cs.takeWhile (fun c => c ≠ '.')
  let rest := cs.dropWhile (fun c => c ≠ '.')
  match rest with
  | [] => (parseDigits ip).map (fun n => (n : ℚ))
  | _ :: fp =>
      if fp.contains '.' then none
      else if ip.isEmpty && fp.isEmpty then none
      else
        match (if ip.isEmpty then some 0 else parseDigits ip),
              (if fp.isEmpty then some 0 else parseDigits fp) with
        | some n, some f => some ((n : ℚ) + (f : ℚ) / (10 : ℚ) ^ fp.length)
        | _, _ => none

/-- The straightforward float parse of a decimal string (the behaviour of
`pd.to_numeric` on plain decimal literals; scientific notation and other
exotic float syntax are outside the scope of the claims). -/
def parseNumeric (s : String) : Option ℚ :=
  match s.data with
  | [] => none
  | '-' :: rest => (parseUnsigned rest).map (fun q => -q)
  | '+' :: rest => parseUnsigned rest
  | cs => parseUnsigned cs

/-- `pd.to_numeric(value_df["$"], errors="coerce")` on one cell: strings
parse to numbers or coerce to null; null stays null. -/
def toNumericCoerce : Cell → Cell
  | .str v =>
      match parseNumeric v with
      | some q => .num q
      | none => .null
  | .num q => .num q
  | .null => .null

/-- `StatsDataReader._handle_missing_values` on the `$` value column: the
marker replacement runs when markers were declared, and the numeric
conversion runs when the configured sentinel is NaN (`pd.isna(self.na_values)`,
true for the default `np.nan`). -/
def handleMissingValues (naIsNan : Bool) (note : Option NoteData) (col : List Cell) :
    List Cell :=
  let chars := noteChars note
  let col1 := if chars.isEmpty then col else col.map (replaceMarkers chars)
  if naIsNan then col1.map toNumericCoerce else col1

/-! The response envelope of `GET_STATS_DATA` as consumed by
`StatsDataReader._read_one_data`, `_handle_missing_values` and
`_merge_class_metadata`. -/

abbrev RawRecord := List (String × String)

structure DataInf where
  value : Option (List RawRecord)
  note : Option NoteData
deriving DecidableEq, Repr

structure ClassInf where
  classObj : List ClassObj
deriving DecidableEq, Repr

structure StatisticalData where
  dataInf : Option DataInf
  classInf : Option ClassInf
deriving DecidableEq, Repr

structure StatsData where
  statisticalData : Option StatisticalData
deriving DecidableEq, Repr

structure Response where
  getStatsData : Option StatsData
deriving DecidableEq, Repr

/-- `out["GET_STATS_DATA"]["STATISTICAL_DATA"]["DATA_INF"]["VALUE"]` in
`_read_one_data`: plain indexing, so the first absent key raises a
`KeyError` that propagates to the caller. -/
def getValueRecords (out : Response) : Except String (List RawRecord) :=
  match out.getStatsData with
  | none => .error "KeyError: GET_STATS_DATA"
  | some sd =>
      match sd.statisticalData with
      | none => .error "KeyError: STATISTICAL_DATA"
      | some st =>
          match st.dataInf with
          | none => .error "KeyError: DATA_INF"
          | some di =>
              match di.value with
              | none => .error "KeyError: VALUE"
              | some v => .ok v

/-- The defensive lookup chain of `_merge_class_metadata`:
`out.get("GET_STATS_DATA", {}).get("STATISTICAL_DATA", {}).get("CLASS_INF",
{}).get("CLASS_OBJ", [])` — any absent key yields the empty list, never an
error. -/
def getClassObjs (out : Response) : List ClassObj :=
  match (out.getStatsData.bind (·.statisticalData)).bind (·.classInf) with
  | some ci => ci.classObj
  | none => []

/-- The defensive lookup chain of `_handle_missing_values` for `NOTE`. -/
def getNote (out : Response) : Option NoteData :=
  ((out.getStatsData.bind (·.statisticalData)).bind (·.dataInf)).bind (·.note)

/-- `pd.DataFrame(value_data)` followed by stripping `@` from the column
names; `self.attrlist` records the stripped raw columns. -/
def buildValueTable (recs : List RawRecord) : List String × Table :=
  let rawCols := unionKeys recs
  (rawCols.map stripAt,
   recs.map (fun rec => rawCols.map (fun c => (stripAt c, toCell (alookup c rec)))))

/-- `_handle_missing_values` at table level: the per-cell composition of
the marker replacement and the numeric conversion, applied to the `$`
column. -/
def handleMissingValuesTable (naIsNan : Bool) (note : Option NoteData) (t : Table) :
    Table :=
  let chars := noteChars note
  t.map (fun r => r.map (fun kv =>
    if kv.1 = "$" then
      (kv.1,
        (fun c => if naIsNan then toNumericCoerce c else c)
          (if chars.isEmpty then kv.2 else replaceMarkers chars kv.2))
    else kv))

/-- The column renaming composition of `_apply_naming_conventions` for one
column name. -/
def renameOneCol (nameOrId : String) (attrlist : List String) (c : String) : String :=
  let c1 := renameDollar (renameColCode attrlist c)
  if nameOrId = "name" then renameValueJa (convertCol c1) else c1

def applyNamingTable (nameOrId : String) (attrlist : List String) (t : Table) : Table :=
  t.map (fun r => r.map (fun kv => (renameOneCol nameOrId attrlist kv.1, kv.2)))

/-- `StatsDataReader._read_one_data` for one already-fetched response:
extract the observation records (raising on an absent key), build the
observation table, handle missing values, merge the class metadata and
apply the naming conventions. -/
def readOneData (nameOrId : String) (out : Response) : Except String Table :=
  match getValueRecords out with
  | .error e => .error e
  | .ok recs =>
      let p := buildValueTable recs
      let t := handleMissingValuesTable true (getNote out) p.2
      let t := mergeClassMetadata nameOrId t (getClassObjs out)
      .ok (applyNamingTable nameOrId p.1 t)

def respNoValue : Response :=
  ⟨some ⟨some ⟨some ⟨none, none⟩, some ⟨[]⟩⟩⟩⟩

def respNoClassInf : Response :=
  ⟨some ⟨some ⟨some ⟨some [], none⟩, none⟩⟩⟩

/-! Hierarchy chain derivation (`MetaInfoReader._create_hierarchy_dataframe`). -/

/-- One classification entry as used by the hierarchy builder, with
`@level` already parsed to an integer (the builder catches and reports a
failure, returning nothing, when some `@level` does not parse; the claims
only concern sets from which a hierarchy is actually derived). -/
structure MetaEntry where
  code : String
  name : String
  level : Nat
  parentCode : Option String
deriving DecidableEq, Repr

/-- Python `str.strip()`: drop whitespace from both ends. -/
def stripped (s : String) : String :=
  ⟨((s.data.dropWhile Char.isWhitespace).reverse.dropWhile Char.isWhitespace).reverse⟩

/-- The parent-code set `{row.get("@parentCode") for row in ... if
row.get("@parentCode") and str(row.get("@parentCode")).strip()}`: only
present, non-blank parent codes count, whoever wrote them (an entry
referencing itself contributes its own code). -/
def parentCodes (es : List MetaEntry) : List String :=
  es.filterMap (fun e =>
    e.parentCode.bind (fun p => if stripped p = "" then none else some p))

/-- `code_to_record` is a dict built in iteration order, so a later entry
with the same code wins. -/
def lookupCode (es : List MetaEntry) (p : String) : Option MetaEntry :=
  es.reverse.find? (fun e => e.code = p)

/-- `_get_ancestry_chain`: record `(level, code)` pairs while climbing
`@parentCode` links, stopping without error when the parent is falsy or
does not resolve.  The Python loop does not terminate on cyclic parent
links; the fuel bound `es.length + 1` used below is enough for every
acyclic input. -/
def ancestryChain (es : List MetaEntry) : Nat → MetaEntry → List (Nat × String)
  | 0, _ => []
  | fuel + 1, e =>
      (e.level, e.code) ::
        (match e.parentCode with
         | none => []
         | some p =>
             if p = "" then []
             else
               match lookupCode es p with
               | none => []
               | some pe => ancestryChain es fuel pe)

/-- `level in ancestry` / `ancestry[level]` with dict-overwrite semantics
(the last recorded pair at a level wins). -/
def chainGet (pairs : List (Nat × String)) (lvl : Nat) : Option String :=
  (pairs.reverse.find? (fun q => q.1 = lvl)).map (·.2)

/-- `meta_cls_df["@level"].max()`. -/
def maxLevel (es : List MetaEntry) : Nat :=
  es.foldl (fun m e => max m e.level) 0

/-- The row-building loop over `range(1, max_level + 1)`: inside the
node's own level range, take the ancestry code at the level or, when the
level is skipped, forward-fill from the last seen code if
`use_fillna_lv_hierarchy` is set; levels beyond the node's level are
null. -/
def chainCells (fillna : Bool) (anc : List (Nat × String)) (nodeLevel : Nat)
    (levels : List Nat) : List (String × Option String) :=
  (levels.foldl
    (fun acc lvl =>
      let col := "level" ++ toString lvl
      if lvl ≤ nodeLevel then
        match chainGet anc lvl with
        | some c => (acc.1 ++ [(col, some c)], some c)
        | none => (acc.1 ++ [(col, if fillna then acc.2 else none)], acc.2)
      else (acc.1 ++ [(col, none)], acc.2))
    (([], none) : List (String × Option String) × Option String)).1

abbrev HRow := List (String × Option String)

def chainRowOf (fillna : Bool) (es : List MetaEntry) (e : MetaEntry) : HRow :=
  chainCells fillna (ancestryChain es (es.length + 1) e) e.level
    (List.range' 1 (maxLevel es))

/-- The leaf filter: `if row["@code"] in parent_codes: continue` — an
entry contributes a chain row exactly when its code is not in the
parent-code set. -/
def leafEntries (es : List MetaEntry) : List MetaEntry :=
  es.filter (fun e => e.code ∉ parentCodes es)

def chainRows (fillna : Bool) (es : List MetaEntry) : List HRow :=
  (leafEntries es).map (chainRowOf fillna es)

/-- The per-level label join `hierarchy_df.merge(name_df, on=level_col,
how="left")`, where `name_df` pairs each entry's code with
`"{code}_{name}"` under the display column `"{name}階層{level}"`. -/
def mergeNameDf (metaName : String) (es : List MetaEntry) (lvl : Nat)
    (rows : List HRow) : List HRow :=
  let lc := "level" ++ toString lvl
  let nc := metaName ++ "階層" ++ toString lvl
  rows.flatMap (fun r =>
    let ms := es.filter (fun e => alookup lc r = some (some e.code))
    if ms.isEmpty then [r ++ [(nc, (none : Option String))]]
    else ms.map (fun e => r ++ [(nc, some (e.code ++ "_" ++ e.name))]))

def setCell (r : HRow) (k : String) (v : Option String) : HRow :=
  r.map (fun kv => if kv.1 = k then (k, v) else kv)

/-- `fillna(method="ffill", axis=1)` across the given columns of one
row. -/
def ffillCols (cols : List String) (r : HRow) : HRow :=
  (cols.foldl
    (fun acc c =>
      match alookup c acc.1 with
      | some (some v) => (acc.1, some v)
      | some none =>
          match acc.2 with
          | some v => (setCell acc.1 c (some v), acc.2)
          | none => acc
      | none => acc)
    ((r, none) : HRow × Option String)).1

/-- `MetaInfoReader._create_hierarchy_dataframe` after `@level` parsing:
build one chain row per leaf entry, return nothing when no row was
generated, then join the display labels per level and, when
`use_fillna_lv_hierarchy` is set, forward-fill the level and display
column blocks (two independent column sets, filled one after the
other). -/
def createHierarchyDataframe (metaName : String) (fillna : Bool)
    (es : List MetaEntry) : Option (List HRow) :=
  let rows := chainRows fillna es
  if rows.isEmpty then none
  else
    let merged := (List.range' 1 (maxLevel es)).foldl
      (fun rs lvl => mergeNameDf metaName es lvl rs) rows
    let levelCols := (List.range' 1 (maxLevel es)).map (fun l => "level" ++ toString l)
    let hierCols := (List.range' 1 (maxLevel es)).map
      (fun l => metaName ++ "階層" ++ toString l)
    some (if fillna then
            merged.map (fun r => ffillCols hierCols (ffillCols levelCols r))
          else merged)

def exSelfParent : List MetaEntry :=
  [⟨"A", "a", 1, some "A"⟩, ⟨"B", "b", 1, none⟩]

/-! ## Theorems -/

theorem filter_eq_find_toList {α β : Type} [DecidableEq β] (key : α → β) (v : β)
    (l : List α) (hnd : (l.map key).Nodup) :
    l.filter (fun e => key e = v) = (l.find? (fun e => key e = v)).toList := by
  induction l with
  | nil => simp
  | cons a t ih =>
      simp only [List.map_cons, List.nodup_cons, List.mem_map] at hnd
      by_cases h : key a = v
      · have ht : t.filter (fun e => key e = v) = [] := by
          apply List.filter_eq_nil_iff.mpr
          intro b hb
          simp only [decide_eq_true_eq]
          intro hbv
          exact hnd.1 ⟨b, hb, by rw [hbv, h]⟩
        simp [List.filter_cons, List.find?_cons, h, ht]
      · simp only [List.filter_cons, List.find?_cons, h, decide_eq_true_eq, if_neg h,
          decide_eq_false h]
        exact ih hnd.2

theorem flatMap_singleton_eq_map {α β : Type} (l : List α) (f : α → List β) (g : α → β)
    (h : ∀ r ∈ l, f r = [g r]) : l.flatMap f = l.map g := by
  induction l with
  | nil => simp
  | cons a t ih =>
      simp only [List.flatMap_cons, List.map_cons, h a (by simp)]
      rw [ih (fun r hr => h r (by simp [hr]))]
      rfl

theorem mergeOne_eq_map (nameOrId : String) (rows : Table) (co : ClassObj)
    (hnd : ∀ ents, truthyEntries co = some ents → (ents.map (·.code)).Nodup) :
    mergeOne nameOrId rows co = rows.map (fun r => r ++ appendSeg nameOrId r co) := by
  cases h : truthyEntries co with
  | none =>
      simp [mergeOne, appendSeg, h]
  | some ents =>
      have hnd' := hnd ents h
      simp only [mergeOne, appendSeg, h]
      apply flatMap_singleton_eq_map
      intro r _
      have hfe : ents.filter (fun e => rowVal r co.id = some e.code)
          = (ents.find? (fun e => rowVal r co.id = some e.code)).toList := by
        have := filter_eq_find_toList (fun e : ClassEntry => some e.code)
          (rowVal r co.id) ents (by
            have : (ents.map (fun e : ClassEntry => some e.code))
                = (ents.map (·.code)).map some := by simp [List.map_map]
            rw [this]
            exact hnd'.map (fun a b hab => Option.some.inj hab))
        simpa [eq_comm] using this
      cases hf : ents.find? (fun e => rowVal r co.id = some e.code) with
      | none => simp [hfe, hf]
      | some e => simp [hfe, hf]

theorem mergeClassMetadata_eq_map (nameOrId : String) (rows : Table)
    (cos : List ClassObj)
    (hnd : ∀ co ∈ cos, ∀ ents, truthyEntries co = some ents → (ents.map (·.code)).Nodup) :
    mergeClassMetadata nameOrId rows cos = rows.map (enrichRow nameOrId cos) := by
  induction cos generalizing rows with
  | nil =>
      simp only [mergeClassMetadata, List.foldl_nil, enrichRow]
      exact (List.map_id' rows).symm
  | cons co cos ih =>
      simp only [mergeClassMetadata, List.foldl_cons]
      rw [show List.foldl (mergeOne nameOrId) (mergeOne nameOrId rows co) cos
            = mergeClassMetadata nameOrId (mergeOne nameOrId rows co) cos from rfl]
      rw [ih _ (fun c hc => hnd c (by simp [hc]))]
      rw [mergeOne_eq_map nameOrId rows co (hnd co (by simp))]
      rw [List.map_map]
      rfl

/-- C1: for a statistics-data response whose classification entries have
codes unique within their classification, `_merge_class_metadata` is a left
join per dimension: the table keeps its row count and row order (each input
row is mapped to exactly one enriched row), and the cells appended for a
dimension carry the matching entry's attributes (in particular its `@name`
in the `<id>_name` column) when the row's code matches an entry, and null
in every appended column when no entry matches; no error is raised. -/
theorem merge_class_metadata_left_join (cos : List ClassObj) (rows : Table)
    (hnd : ∀ co ∈ cos, ∀ ents, truthyEntries co = some ents → (ents.map (·.code)).Nodup) :
    mergeClassMetadata "id" rows cos = rows.map (enrichRow "id" cos)
    ∧ (mergeClassMetadata "id" rows cos).length = rows.length
    ∧ ∀ (r : Row) (co : ClassObj) (ents : List ClassEntry),
        truthyEntries co = some ents →
        appendSeg "id" r co = (unionKeys (ents.map (·.fields))).map (fun c =>
          (co.id ++ "_" ++ stripAt c,
           match ents.find? (fun e => rowVal r co.id = some e.code) with
           | some e => toCell (alookup c e.fields)
           | none => Cell.null)) := by
  refine ⟨mergeClassMetadata_eq_map "id" rows cos hnd, ?_, ?_⟩
  · rw [mergeClassMetadata_eq_map "id" rows cos hnd]
    exact List.length_map rows _
  · intro r co ents hco
    simp only [appendSeg, hco, prefixCol, if_pos rfl, if_true]

/-- C1 witness: the left-join theorem evaluated on a concrete response
(one `cat01` classification with two coded entries, one matching row and
one row whose code `999` has no entry). -/
theorem merge_class_metadata_left_join_witness :
    mergeClassMetadata "id"
        [[("cat01", Cell.str "001"), ("$", Cell.str "1000")],
         [("cat01", Cell.str "999"), ("$", Cell.str "5")]]
        [⟨"cat01", "分類1", some (.many
          [⟨"001", [("@name", "Food"), ("@level", "1")]⟩,
           ⟨"002", [("@name", "Housing"), ("@level", "1")]⟩])⟩]
      = ([[("cat01", Cell.str "001"), ("$", Cell.str "1000")],
          [("cat01", Cell.str "999"), ("$", Cell.str "5")]].map
          (enrichRow "id"
            [⟨"cat01", "分類1", some (.many
              [⟨"001", [("@name", "Food"), ("@level", "1")]⟩,
               ⟨"002", [("@name", "Housing"), ("@level", "1")]⟩])⟩])) := by
  exact (merge_class_metadata_left_join
    [⟨"cat01", "分類1", some (.many
      [⟨"001", [("@name", "Food"), ("@level", "1")]⟩,
       ⟨"002", [("@name", "Housing"), ("@level", "1")]⟩])⟩]
    [[("cat01", Cell.str "001"), ("$", Cell.str "1000")],
     [("cat01", Cell.str "999"), ("$", Cell.str "5")]]
    (by
      intro co hco ents hents
      rw [List.mem_singleton] at hco
      subst hco
      simp only [truthyEntries, entryList, Option.some.injEq] at hents
      subst hents
      decide)).1

theorem append_code_eq_dollar_iff (c : String) :
    (c ++ "_code" = "$_code") ↔ c = "$" := by
  constructor
  · intro h
    have hd : c.data ++ "_code".data = "$".data ++ "_code".data := by
      have := congrArg String.data h
      simpa [String.data_append] using this
    exact String.ext (List.append_cancel_right hd)
  · intro h
    rw [h]
    decide

theorem map_id_of_mem {α : Type} (l : List α) (f : α → α)
    (h : ∀ c ∈ l, f c = c) : l.map f = l := by
  induction l with
  | nil => rfl
  | cons a t ih => simp [h a (by simp), ih (fun c hc => h c (by simp [hc]))]

/-- C8 counterexample: with raw observation columns `tab`, `unit`, `$`
(so `attrlist = ["tab", "unit", "$"]`), `_apply_naming_conventions` renames
the `unit` column to `unit_code`, contradicting the claim that the unit
column is never given a `_code` suffix. -/
theorem apply_naming_renames_unit_counterexample :
    applyNamingConventions "id" ["tab", "unit", "$"] ["tab", "unit", "$"]
      = ["tab_code", "unit_code", "value"]
    ∧ "unit" ∉ applyNamingConventions "id" ["tab", "unit", "$"] ["tab", "unit", "$"] := by
  constructor
  · rfl
  · decide

/-- C8 amended: in the machine-oriented (`name_or_id == "id"`) naming pass,
every column that belongs to `attrlist` — the bare dimension ids, the
`unit` column and the `$` value column alike — is renamed to
`"<col>_code"`, and `"$_code"` is then renamed to `"value"`; columns not in
`attrlist` are only touched by the `"$_code" → "value"` rename.  The unit
column is not exempt: it becomes `unit_code`. -/
theorem apply_naming_conventions_code_suffix (attrlist cols : List String) :
    applyNamingConventions "id" attrlist cols
      = cols.map (fun c =>
          if c ∈ attrlist then (if c = "$" then "value" else c ++ "_code")
          else (if c = "$_code" then "value" else c)) := by
  simp only [applyNamingConventions, if_neg (by decide : ¬ ("id" = "name")), List.map_map]
  apply List.map_congr_left
  intro c _
  simp only [Function.comp_apply, renameColCode, renameDollar]
  by_cases hmem : c ∈ attrlist
  · simp only [if_pos hmem]
    by_cases hd : c = "$"
    · subst hd
      simp
    · rw [if_neg (fun h => hd ((append_code_eq_dollar_iff c).mp h)), if_neg hd]
  · simp only [if_neg hmem]

/-- C9 counterexample: the localization pass is not idempotent.  The
observation table produced by the pipeline carries the column `tab_code`,
which one application localizes to `tab_コード`; a second application still
finds the token `tab` in it and rewrites it to `表章項目_コード`. -/
theorem colname_to_japanese_not_idempotent_counterexample :
    convertCol "tab_code" = "tab_コード"
    ∧ convertCol "tab_コード" = "表章項目_コード"
    ∧ colname_to_japanese (colname_to_japanese ["tab_code"])
        ≠ colname_to_japanese ["tab_code"] := by
  refine ⟨by decide, by decide, by decide⟩

/-- C9 amended: a second application of the localization pass leaves a
table unchanged provided every column of the once-localized table contains
none of the source tokens of the substitution table.  (Without that
proviso idempotence fails: a once-localized name such as `tab_コード`
still contains the token `tab` and is translated again.) -/
theorem colname_to_japanese_idempotent_of_no_token (cols : List String)
    (h : ∀ c ∈ colname_to_japanese cols, ∀ kv ∈ attrdict,
          containsSub kv.1.data c.data = false) :
    colname_to_japanese (colname_to_japanese cols) = colname_to_japanese cols := by
  apply map_id_of_mem
  intro c hc
  have hfind : attrdict.find? (fun kv => containsSub kv.1.data c.data) = none := by
    apply List.find?_eq_none.mpr
    intro kv hkv
    simp [h c hc kv hkv]
  simp [convertCol, hfind]

/-- C9 witness: the amended idempotence theorem applied to the concrete
already-localized table with single column `値`. -/
theorem colname_to_japanese_idempotent_witness :
    colname_to_japanese (colname_to_japanese ["値"]) = colname_to_japanese ["値"] := by
  exact colname_to_japanese_idempotent_of_no_token ["値"] (by decide)

theorem insertDesc_mem (x a : ClsInfo) (l : List ClsInfo) :
    a ∈ insertDesc x l ↔ a = x ∨ a ∈ l := by
  induction l with
  | nil => simp [insertDesc]
  | cons y ys ih =>
      by_cases h : y.size < x.size
      · simp [insertDesc, h]
      · simp [insertDesc, h, ih]
        tauto

theorem sortDesc_mem (a : ClsInfo) (l : List ClsInfo) :
    a ∈ sortDesc l ↔ a ∈ l := by
  induction l with
  | nil => simp [sortDesc]
  | cons y ys ih =>
      simp only [sortDesc, List.foldr_cons] at *
      rw [insertDesc_mem, ih, List.mem_cons]

theorem insertDesc_pairwise (x : ClsInfo) (l : List ClsInfo)
    (h : l.Pairwise (fun a b => b.size ≤ a.size)) :
    (insertDesc x l).Pairwise (fun a b => b.size ≤ a.size) := by
  induction l with
  | nil => simp [insertDesc]
  | cons y ys ih =>
      rcases List.pairwise_cons.mp h with ⟨hy, hys⟩
      by_cases hlt : y.size < x.size
      · simp only [insertDesc, if_pos hlt]
        refine List.pairwise_cons.mpr ⟨?_, h⟩
        intro b hb
        rcases List.mem_cons.mp hb with rfl | hb
        · omega
        · have := hy b hb
          omega
      · simp only [insertDesc, if_neg hlt]
        refine List.pairwise_cons.mpr ⟨?_, ih hys⟩
        intro b hb
        rcases (insertDesc_mem x b ys).mp hb with rfl | hb
        · omega
        · exact hy b hb

theorem sortDesc_pairwise (l : List ClsInfo) :
    (sortDesc l).Pairwise (fun a b => b.size ≤ a.size) := by
  induction l with
  | nil => simp [sortDesc]
  | cons y ys ih => exact insertDesc_pairwise y (sortDesc ys) ih

theorem chooseDims_eq_chooseDimsE (cos : List ClassObj) (remaining : Nat)
    (infos : List ClsInfo) :
    chooseDims cos remaining infos
      = chooseDimsE cos remaining (infos.filter (fun i => (ptrans i.id).isSome)) := by
  induction infos generalizing remaining with
  | nil => rfl
  | cons info rest ih =>
      cases hp : ptrans info.id with
      | none =>
          have hfilter : (info :: rest).filter (fun i => (ptrans i.id).isSome)
              = rest.filter (fun i => (ptrans i.id).isSome) := by
            simp [List.filter_cons, hp]
          rw [hfilter]
          simp only [chooseDims, hp]
          exact ih remaining
      | some p =>
          have hfilter : (info :: rest).filter (fun i => (ptrans i.id).isSome)
              = info :: rest.filter (fun i => (ptrans i.id).isSome) := by
            simp [List.filter_cons, hp]
          rw [hfilter]
          simp only [chooseDims, chooseDimsE, hp, Option.getD_some]
          by_cases hr : remaining / info.size < 100000
          · simp [hr]
          · simp only [if_neg hr]
            rw [ih (remaining / info.size)]

theorem chooseDimsE_shortest (cos : List ClassObj) :
    ∀ (eligs : List ClsInfo) (total k : Nat),
    100000 ≤ total →
    k ≤ eligs.length →
    foldDiv total ((eligs.take k).map (·.size)) < 100000 →
    (∀ j < k, ¬ foldDiv total ((eligs.take j).map (·.size)) < 100000) →
    chooseDimsE cos total eligs
      = (eligs.take k).map (fun i => ((ptrans i.id).getD "", codesAt cos i.index)) := by
  intro eligs
  induction eligs with
  | nil =>
      intro total k hcap hk hsat _
      simp only [List.length_nil, Nat.le_zero] at hk
      subst hk
      simp only [List.take_nil, List.map_nil, foldDiv, List.foldl_nil] at hsat
      omega
  | cons e rest ih =>
      intro total k hcap hk hsat hmin
      have hk0 : k ≠ 0 := by
        intro h
        subst h
        simp only [List.take_zero, List.map_nil, foldDiv, List.foldl_nil] at hsat
        omega
      obtain ⟨k', rfl⟩ : ∃ k', k = k' + 1 := ⟨k - 1, by omega⟩
      by_cases hr : total / e.size < 100000
      · have hk' : k' = 0 := by
          by_contra hne
          have h1 : ¬ foldDiv total (((e :: rest).take 1).map (·.size)) < 100000 :=
            hmin 1 (by omega)
          simp only [List.take_succ_cons, List.take_zero, List.map_cons, List.map_nil,
            foldDiv, List.foldl_cons, List.foldl_nil] at h1
          exact h1 hr
        subst hk'
        simp [chooseDimsE, if_pos hr]
      · have hk1 : k' ≠ 0 := by
          intro h
          subst h
          simp only [List.take_succ_cons, List.take_zero, List.map_cons, List.map_nil,
            foldDiv, List.foldl_cons, List.foldl_nil] at hsat
          exact hr hsat
        simp only [chooseDimsE, if_neg hr]
        rw [List.take_succ_cons, List.map_cons]
        congr 1
        apply ih (total / e.size) k' (by omega) (by simpa using hk)
        · simpa only [List.take_succ_cons, List.map_cons, foldDiv, List.foldl_cons]
            using hsat
        · intro j hj
          have := hmin (j + 1) (by omega)
          simpa only [List.take_succ_cons, List.map_cons, foldDiv, List.foldl_cons]
            using this

theorem flatMap_const_length {α β : Type} (acc : List α) (cl : List β)
    (g : α → β → α) :
    (acc.flatMap (fun ex => cl.map (g ex))).length = acc.length * cl.length := by
  induction acc with
  | nil => simp
  | cons a t ih =>
      simp only [List.flatMap_cons, List.length_append, List.length_map, ih,
        List.length_cons]
      ring

theorem genParams_foldl_length (codes : List (List String)) :
    ∀ acc : List (List String),
    (codes.foldl
      (fun result codeList => result.flatMap (fun ex => codeList.map (fun c => ex ++ [c])))
      acc).length = acc.length * (codes.map List.length).prod := by
  induction codes with
  | nil => intro acc; simp
  | cons cl cs ih =>
      intro acc
      simp only [List.foldl_cons, ih, List.map_cons, List.prod_cons]
      rw [flatMap_const_length acc cl (fun ex c => ex ++ [c])]
      ring

theorem genParams_length (codes : List (List String)) (h : codes ≠ []) :
    (generateParameterCombinations codes).length = (codes.map List.length).prod := by
  have hne : codes.isEmpty = false := by
    cases codes
    · exact absurd rfl h
    · rfl
  simp only [generateParameterCombinations, hne, Bool.false_eq_true, if_false]
  simpa using genParams_foldl_length codes [[]]

theorem fetchLoop_all_ok (fetch : List (String × String) → Except String Table)
    (pn : List String) (combos : List (List String)) (tbl : List String → Table)
    (h : ∀ c ∈ combos, fetch (pn.zip c) = .ok (tbl c)) :
    fetchLoop fetch pn combos = combos.map tbl := by
  induction combos with
  | nil => rfl
  | cons c cs ih =>
      simp only [fetchLoop, h c (by simp), List.map_cons]
      rw [ih (fun c hc => h c (by simp [hc]))]

theorem fetchLoop_eq_filterMap (fetch : List (String × String) → Except String Table)
    (pn : List String) (combos : List (List String)) :
    fetchLoop fetch pn combos
      = combos.filterMap (fun c => (fetch (pn.zip c)).toOption) := by
  induction combos with
  | nil => rfl
  | cons c cs ih =>
      simp only [fetchLoop, List.filterMap_cons]
      cases hf : fetch (pn.zip c) with
      | ok df => simp [Except.toOption, hf, ih]
      | error e => simp [Except.toOption, hf, ih]

theorem if_isEmpty_flatten (dfs : List Table) :
    (if dfs.isEmpty then ([] : Table) else dfs.flatten) = dfs.flatten := by
  cases dfs <;> simp

/-- C2: `_read` issues exactly one data request (the configured one, no
probe, no pagination) when a non-null limit is configured; with a null
limit it first issues the `limit=1` probe, then a single normal fetch when
the reported total is at most 100000, and the classification-partition
requests when the total exceeds 100000. -/
theorem read_pagination_dispatch (l total : Nat) (cos : List ClassObj) :
    readDataRequests (some l) total cos = [(some l, [])]
    ∧ (readDataRequests (some l) total cos).length = 1
    ∧ readDataRequests none total cos
        = (some 1, []) ::
            (if total ≤ 100000
             then [((none : Option Nat), ([] : List (String × String)))]
             else splitRequests cos total)
    ∧ (100000 < total →
        (readDataRequests none total cos).tail = splitRequests cos total) := by
  refine ⟨rfl, rfl, rfl, ?_⟩
  intro h
  simp [readDataRequests, if_neg (by omega : ¬ total ≤ 100000)]

/-- C3: candidate dimensions are considered in descending order of
distinct-code count; the chosen dimensions are the shortest prefix of the
eligible candidates whose successive integer divisions bring the total
under 100000; one request is generated per element of the Cartesian
product of the chosen code lists (their count is the product of the list
lengths), and with no failures the result is the concatenation of the
per-request tables in generation order. -/
theorem classification_split_partitioning (cos : List ClassObj) (total k : Nat)
    (fetch : List (String × String) → Except String Table) (tbl : List String → Table)
    (_hpos : ∀ i ∈ eligibleInfos cos, 0 < i.size)
    (hcap : 100000 ≤ total)
    (hk : k ≤ (eligibleInfos cos).length)
    (hsat : foldDiv total (((eligibleInfos cos).take k).map (·.size)) < 100000)
    (hmin : ∀ j < k, ¬ foldDiv total (((eligibleInfos cos).take j).map (·.size)) < 100000)
    (hfetch : ∀ c ∈ splitCombos cos total,
        fetch ((splitParamNames cos total).zip c) = .ok (tbl c)) :
    (sortDesc (clsInfo cos)).Pairwise (fun a b => b.size ≤ a.size)
    ∧ splitChosen cos total
        = ((eligibleInfos cos).take k).map
            (fun i => ((ptrans i.id).getD "", codesAt cos i.index))
    ∧ (splitChosen cos total ≠ [] →
        (splitCombos cos total).length
          = ((splitChosen cos total).map (fun pc => pc.2.length)).prod)
    ∧ readWithClassificationSplit fetch cos total
        = ((splitCombos cos total).map tbl).flatten := by
  refine ⟨sortDesc_pairwise (clsInfo cos), ?_, ?_, ?_⟩
  · rw [splitChosen, chooseDims_eq_chooseDimsE]
    exact chooseDimsE_shortest cos (eligibleInfos cos) total k hcap hk hsat hmin
  · intro hne
    rw [splitCombos, genParams_length _ (by simpa using hne), List.map_map]
    rfl
  · rw [readWithClassificationSplit, if_isEmpty_flatten,
      fetchLoop_all_ok fetch _ _ tbl hfetch]

/-- C4: a partition whose fetch raises is omitted while the remaining
partitions are still fetched — the result is the concatenation of the
successfully fetched partitions, with no exception reaching the caller —
and when every partition fails the result is the empty table. -/
theorem partition_partial_failure (fetch : List (String × String) → Except String Table)
    (cos : List ClassObj) (total : Nat) :
    readWithClassificationSplit fetch cos total
      = ((splitCombos cos total).filterMap
          (fun c => (fetch ((splitParamNames cos total).zip c)).toOption)).flatten
    ∧ ((∀ c ∈ splitCombos cos total,
          ∃ e, fetch ((splitParamNames cos total).zip c) = .error e)
        → readWithClassificationSplit fetch cos total = []) := by
  constructor
  · rw [readWithClassificationSplit, if_isEmpty_flatten, fetchLoop_eq_filterMap]
  · intro h
    rw [readWithClassificationSplit, if_isEmpty_flatten, fetchLoop_eq_filterMap]
    have : (splitCombos cos total).filterMap
        (fun c => (fetch ((splitParamNames cos total).zip c)).toOption) = [] := by
      apply List.filterMap_eq_nil_iff.mpr
      intro c hc
      obtain ⟨e, he⟩ := h c hc
      simp [he, Except.toOption]
    simp [this]

theorem clsInfoAux_mem (i : ClsInfo) :
    ∀ (cos : List ClassObj) (n : Nat), i ∈ clsInfoAux n cos →
    ∃ co ∈ cos, ∃ es, co.classData = some (.many es)
      ∧ i.id = co.id ∧ i.size = es.length := by
  intro cos
  induction cos with
  | nil => intro n h; simp [clsInfoAux] at h
  | cons co rest ih =>
      intro n h
      cases hcd : co.classData with
      | none =>
          simp only [clsInfoAux, hcd] at h
          obtain ⟨co', hco', hes⟩ := ih (n + 1) h
          exact ⟨co', by simp [hco'], hes⟩
      | some cd =>
          cases cd with
          | single e =>
              simp only [clsInfoAux, hcd] at h
              obtain ⟨co', hco', hes⟩ := ih (n + 1) h
              exact ⟨co', by simp [hco'], hes⟩
          | many es =>
              simp only [clsInfoAux, hcd, List.mem_cons] at h
              rcases h with rfl | h
              · exact ⟨co, by simp, es, hcd, rfl, rfl⟩
              · obtain ⟨co', hco', hes⟩ := ih (n + 1) h
                exact ⟨co', by simp [hco'], hes⟩

theorem ptrans_mem (dimId p : String) (h : ptrans dimId = some p) :
    p ∈ ["cdTab", "cdTime", "cdArea", "cdCat01", "cdCat02", "cdCat03"] := by
  simp only [ptrans, alookup] at h
  split_ifs at h <;> simp_all

theorem chooseDims_mem (cos : List ClassObj) (pc : String × List String) :
    ∀ (infos : List ClsInfo) (remaining : Nat), pc ∈ chooseDims cos remaining infos →
    ∃ i ∈ infos, ptrans i.id = some pc.1 ∧ pc.2 = codesAt cos i.index := by
  intro infos
  induction infos with
  | nil => intro remaining h; simp [chooseDims] at h
  | cons info rest ih =>
      intro remaining h
      cases hp : ptrans info.id with
      | none =>
          simp only [chooseDims, hp] at h
          obtain ⟨i, hi, hrest⟩ := ih remaining h
          exact ⟨i, by simp [hi], hrest⟩
      | some p =>
          simp only [chooseDims, hp] at h
          by_cases hr : remaining / info.size < 100000
          · rw [if_pos hr, List.mem_singleton] at h
            subst h
            exact ⟨info, by simp, hp, rfl⟩
          · rw [if_neg hr, List.mem_cons] at h
            rcases h with rfl | h
            · exact ⟨info, by simp, hp, rfl⟩
            · obtain ⟨i, hi, hrest⟩ := ih (remaining / info.size) h
              exact ⟨i, by simp [hi], hrest⟩

/-- C10: partitions are only ever taken over dimensions whose id is one of
`tab`, `time`, `area`, `cat01`, `cat02`, `cat03` (`ptrans`) and whose
`CLASS` field is a list; and when the probe reports more than 100000
records but no dimension satisfies both conditions, no partition request
is generated and the read returns an empty table, not an error. -/
theorem split_dimension_eligibility (cos : List ClassObj) (total : Nat)
    (fetch : List (String × String) → Except String Table) :
    ((∀ i ∈ clsInfo cos, 0 < i.size) →
      ∀ pc ∈ splitChosen cos total,
        pc.1 ∈ ["cdTab", "cdTime", "cdArea", "cdCat01", "cdCat02", "cdCat03"]
        ∧ ∃ co ∈ cos, ∃ es, co.classData = some (.many es) ∧ ptrans co.id = some pc.1)
    ∧ ((∀ co ∈ cos, ∀ es, co.classData = some (.many es) → ptrans co.id = none) →
        100000 < total →
        splitRequests cos total = []
        ∧ readWithClassificationSplit fetch cos total = []
        ∧ readDataRequests none total cos = [(some 1, [])]) := by
  constructor
  · intro _ pc hpc
    obtain ⟨i, hi, hp, -⟩ := chooseDims_mem cos pc (sortDesc (clsInfo cos)) total hpc
    have hi' : i ∈ clsInfo cos := (sortDesc_mem i (clsInfo cos)).mp hi
    obtain ⟨co, hco, es, hes, hid, -⟩ := clsInfoAux_mem i cos 0 hi'
    exact ⟨ptrans_mem _ _ hp, co, hco, es, hes, by rwa [← hid]⟩
  · intro hno htot
    have hchosen : splitChosen cos total = [] := by
      rw [splitChosen, chooseDims_eq_chooseDimsE]
      have : (sortDesc (clsInfo cos)).filter (fun i => (ptrans i.id).isSome) = [] := by
        apply List.filter_eq_nil_iff.mpr
        intro i hi
        have hi' : i ∈ clsInfo cos := (sortDesc_mem i (clsInfo cos)).mp hi
        obtain ⟨co, hco, es, hes, hid, -⟩ := clsInfoAux_mem i cos 0 hi'
        simp [hid, hno co hco es hes]
      rw [this]
      rfl
    have hcombos : splitCombos cos total = [] := by
      rw [splitCombos, hchosen]
      rfl
    refine ⟨?_, ?_, ?_⟩
    · rw [splitRequests, hcombos]
      rfl
    · rw [readWithClassificationSplit, hcombos]
      rfl
    · simp [readDataRequests, if_neg (by omega : ¬ total ≤ 100000), splitRequests,
        hcombos]

/-- C3 witness: Scenario D — total 250000, `area` with 47 codes and
`cat01` with 3 codes: `area` alone is selected (250000 / 47 = 5319 <
100000) and 47 partition requests are issued. -/
theorem classification_split_partitioning_witness :
    (splitChosen cosD 250000
        = ((eligibleInfos cosD).take 1).map
            (fun i => ((ptrans i.id).getD "", codesAt cosD i.index)))
    ∧ readWithClassificationSplit fetchD cosD 250000
        = ((splitCombos cosD 250000).map tblD).flatten
    ∧ (splitCombos cosD 250000).length = 47
    ∧ splitParamNames cosD 250000 = ["cdArea"] := by
  have h := classification_split_partitioning cosD 250000 1 fetchD tblD
    (by decide)
    (by omega)
    (by decide)
    (by decide)
    (by
      intro j hj
      have hj0 : j = 0 := by omega
      subst hj0
      decide)
    (by intro c _; rfl)
  exact ⟨h.2.1, h.2.2.2, by decide, by decide⟩

/-- C4 witness: the partial-failure theorem applied to a fetch oracle that
fails on every partition — the read returns the empty table. -/
theorem partition_partial_failure_witness :
    readWithClassificationSplit (fun _ => Except.error "boom") cosD 250000 = [] :=
  (partition_partial_failure (fun _ => Except.error "boom") cosD 250000).2
    (fun _ _ => ⟨"boom", rfl⟩)

/-- C10 witness: a probe total of 200000 with only a single-object `area`
classification and a list-valued `cat04` classification — neither is
partitionable, so no partition request is generated and the read returns
an empty table. -/
theorem split_dimension_eligibility_witness :
    splitRequests cosX 200000 = []
    ∧ readWithClassificationSplit fetchD cosX 200000 = []
    ∧ readDataRequests none 200000 cosX = [(some 1, [])] := by
  exact (split_dimension_eligibility cosX 200000 fetchD).2
    (by
      intro co hco es hes
      rcases List.mem_cons.mp hco with rfl | hco
      · simp at hes
      · rcases List.mem_cons.mp hco with rfl | hco
        · rfl
        · simp at hco)
    (by omega)

/-- C5: with the default NaN sentinel, after missing-value handling the
value column holds null for every record whose raw value string equals a
declared marker character, and the straightforward float parse of the raw
string otherwise; strings the parse rejects become null rather than
raising. -/
theorem missing_value_handling (note : Option NoteData) (col : List String) :
    handleMissingValues true note (col.map Cell.str)
      = col.map (fun s =>
          if s ∈ noteChars note then Cell.null
          else
            match parseNumeric s with
            | some q => Cell.num q
            | none => Cell.null) := by
  by_cases hc : (noteChars note).isEmpty
  · have hnil : noteChars note = [] := by
      cases h : noteChars note
      · rfl
      · rw [h] at hc; simp at hc
    simp only [handleMissingValues, hnil, List.isEmpty_nil, if_pos rfl, if_true,
      List.map_map]
    rfl
  · simp only [handleMissingValues, hc, Bool.false_eq_true, if_false, if_true,
      List.map_map]
    congr 1
    funext s
    by_cases hs : s ∈ noteChars note
    · simp [Function.comp, replaceMarkers, toNumericCoerce, hs]
    · simp [Function.comp, replaceMarkers, toNumericCoerce, hs]

/-- C6: an absent observation-records list
(`GET_STATS_DATA.STATISTICAL_DATA.DATA_INF.VALUE`) makes the single-page
read fail with a lookup error that reaches the caller, while an entirely
absent `CLASS_INF` makes the classification merge return the observation
table unmodified — no columns added, no error raised. -/
theorem lookup_error_asymmetry (nameOrId : String) (out : Response) (df : Table) :
    (∀ sd st di, out.getStatsData = some sd → sd.statisticalData = some st →
        st.dataInf = some di → di.value = none →
        readOneData nameOrId out = .error "KeyError: VALUE")
    ∧ ((out.getStatsData.bind (·.statisticalData)).bind (·.classInf) = none →
        mergeClassMetadata nameOrId df (getClassObjs out) = df) := by
  constructor
  · intro sd st di hsd hst hdi hv
    simp [readOneData, getValueRecords, hsd, hst, hdi, hv]
  · intro h
    simp only [getClassObjs, h]
    rfl

/-- C6 witness: the asymmetry theorem applied to a concrete response
lacking `VALUE` and a concrete response lacking `CLASS_INF`. -/
theorem lookup_error_asymmetry_witness :
    readOneData "id" respNoValue = .error "KeyError: VALUE"
    ∧ mergeClassMetadata "id" [[("tab", Cell.str "01")]] (getClassObjs respNoClassInf)
        = [[("tab", Cell.str "01")]] := by
  constructor
  · exact (lookup_error_asymmetry "id" respNoValue []).1 _ _ _ rfl rfl rfl rfl
  · exact (lookup_error_asymmetry "id" respNoClassInf [[("tab", Cell.str "01")]]).2 rfl

theorem mem_parentCodes (es : List MetaEntry) (c : String) :
    c ∈ parentCodes es
      ↔ ∃ e' ∈ es, ∃ p, e'.parentCode = some p ∧ stripped p ≠ "" ∧ p = c := by
  simp only [parentCodes, List.mem_filterMap, Option.bind_eq_some]
  constructor
  · rintro ⟨e', he', p, hp, hite⟩
    by_cases ht : stripped p = ""
    · simp [ht] at hite
    · simp only [if_neg ht, Option.some.injEq] at hite
      exact ⟨e', he', p, hp, ht, hite⟩
  · rintro ⟨e', he', p, hp, ht, rfl⟩
    exact ⟨e', he', p, hp, by simp [if_neg ht]⟩

theorem flatMap_length_one {α β : Type} (l : List α) (f : α → List β)
    (h : ∀ r ∈ l, (f r).length = 1) : (l.flatMap f).length = l.length := by
  induction l with
  | nil => rfl
  | cons a t ih =>
      simp only [List.flatMap_cons, List.length_append, h a (by simp),
        ih (fun r hr => h r (by simp [hr])), List.length_cons]
      omega

theorem mergeNameDf_length (metaName : String) (es : List MetaEntry) (lvl : Nat)
    (rows : List HRow) (hnd : (es.map (·.code)).Nodup) :
    (mergeNameDf metaName es lvl rows).length = rows.length := by
  apply flatMap_length_one
  intro r _
  have hfe : es.filter (fun e => alookup ("level" ++ toString lvl) r = some (some e.code))
      = (es.find? (fun e =>
          alookup ("level" ++ toString lvl) r = some (some e.code))).toList := by
    have := filter_eq_find_toList (fun e : MetaEntry => (some (some e.code) : Option (Option String)))
      (alookup ("level" ++ toString lvl) r) es (by
        have hmm : (es.map (fun e : MetaEntry => (some (some e.code) : Option (Option String))))
            = (es.map (·.code)).map (fun c => some (some c)) := by simp [List.map_map]
        rw [hmm]
        exact hnd.map (fun a b hab => by
          simpa using hab))
    simpa [eq_comm] using this
  cases hf : es.find? (fun e => alookup ("level" ++ toString lvl) r = some (some e.code)) with
  | none => simp [hfe, hf]
  | some e => simp [hfe, hf]

theorem mergeNameDf_foldl_length (metaName : String) (es : List MetaEntry)
    (hnd : (es.map (·.code)).Nodup) :
    ∀ (lvls : List Nat) (rows : List HRow),
    (lvls.foldl (fun rs lvl => mergeNameDf metaName es lvl rs) rows).length
      = rows.length := by
  intro lvls
  induction lvls with
  | nil => intro rows; rfl
  | cons lvl rest ih =>
      intro rows
      simp only [List.foldl_cons, ih, mergeNameDf_length metaName es lvl rows hnd]

/-- C7 counterexample: in the set `{A (parentCode A), B}` the code `A`
never appears as ANOTHER entry's parent code, yet `A` contributes no row —
the parent-code set is built from all entries including `A` itself — so
the derived table has a single row (`B`'s) instead of the two rows the
claim predicts. -/
theorem hierarchy_leaf_counterexample :
    (⟨"A", "a", 1, some "A"⟩ : MetaEntry) ∈ exSelfParent
    ∧ (∀ e' ∈ exSelfParent, e' ≠ ⟨"A", "a", 1, some "A"⟩ →
        ∀ p, e'.parentCode = some p → p ≠ "A")
    ∧ (⟨"A", "a", 1, some "A"⟩ : MetaEntry) ∉ leafEntries exSelfParent
    ∧ (createHierarchyDataframe "地域" true exSelfParent).isSome = true
    ∧ ((createHierarchyDataframe "地域" true exSelfParent).getD []).length = 1 := by
  refine ⟨by decide, by decide, by decide, by decide, by decide⟩

/-- C7 amended: an entry of the set appears as a row of the derived
hierarchy table if and only if its code never appears as ANY entry's
present, non-blank `parentCode` — its own included; every such leaf
produces exactly one row (the label joins are one-to-one when codes are
unique), and every interior or self-referencing entry produces none. -/
theorem hierarchy_leaf_invariant (metaName : String) (fillna : Bool)
    (es : List MetaEntry) (hnd : (es.map (·.code)).Nodup) :
    (∀ t, createHierarchyDataframe metaName fillna es = some t →
        t.length = (leafEntries es).length)
    ∧ ∀ e ∈ es,
        (e ∈ leafEntries es
          ↔ ¬ ∃ e' ∈ es, ∃ p, e'.parentCode = some p ∧ stripped p ≠ "" ∧ p = e.code) := by
  constructor
  · intro t ht
    by_cases hrows : (chainRows fillna es).isEmpty = true
    · rw [createHierarchyDataframe] at ht
      rw [if_pos hrows] at ht
      exact Option.noConfusion ht
    · rw [createHierarchyDataframe] at ht
      rw [if_neg hrows] at ht
      have ht' := Option.some.inj ht
      subst ht'
      have hlen := mergeNameDf_foldl_length metaName es hnd
        (List.range' 1 (maxLevel es)) (chainRows fillna es)
      by_cases hf : fillna = true
      · rw [if_pos hf, List.length_map, hlen, chainRows, List.length_map]
      · rw [if_neg hf, hlen, chainRows, List.length_map]
  · intro e he
    rw [leafEntries, List.mem_filter]
    constructor
    · rintro ⟨-, hnotin⟩ hex
      rw [show (∃ e' ∈ es, ∃ p, e'.parentCode = some p ∧ stripped p ≠ "" ∧ p = e.code)
            = (e.code ∈ parentCodes es) from propext (mem_parentCodes es e.code).symm]
        at hex
      simp only [decide_eq_true_eq] at hnotin
      exact hnotin hex
    · intro hnot
      refine ⟨he, ?_⟩
      simp only [decide_eq_true_eq]
      rw [mem_parentCodes es e.code]
      exact hnot

/-- C7 witness: the amended invariant evaluated on the concrete set
`{A (parentCode A), B}`: the derived table (one row) has as many rows as
there are leaves, and `B` is a leaf because no present non-blank parent
code equals `B`. -/
theorem hierarchy_leaf_invariant_witness :
    ((createHierarchyDataframe "地域" true exSelfParent).getD []).length
        = (leafEntries exSelfParent).length
    ∧ ((⟨"B", "b", 1, none⟩ : MetaEntry) ∈ leafEntries exSelfParent
        ↔ ¬ ∃ e' ∈ exSelfParent, ∃ p,
            e'.parentCode = some p ∧ stripped p ≠ "" ∧ p = "B") := by
  constructor
  · exact (hierarchy_leaf_invariant "地域" true exSelfParent (by decide)).1
      ((createHierarchyDataframe "地域" true exSelfParent).getD []) (by decide)
  · exact (hierarchy_leaf_invariant "地域" true exSelfParent (by decide)).2
      ⟨"B", "b", 1, none⟩ (by decide)

end JpyDatareader



